import Mathlib

/-!
# solr-multiline: a logspout adapter that ships container log lines to Solr

A shallow embedding of `solr-multiline.go` (package `solr`) and the properties
of its container filter, its per-container metadata caches, its document
construction and its delivery loop.

Conventions of the embedding.

* Go strings are modelled by `String`.  Every string operation the program uses
  (`==`, `len(s) > 0`, `strings.HasPrefix`, `strings.TrimPrefix`,
  `strings.Split` on `","` and `"="`, `strings.Replace` of `"."`,
  `strings.Trim` of `"\r\n"`) compares or searches for ASCII bytes, which never
  occur inside a multi-byte UTF-8 sequence, so working on characters instead of
  bytes does not change any result.
* A Go `map[string]V` is an association list with unique keys (`GoMap V`);
  `range` visits the entries in list order, which is one of the orders the Go
  runtime may choose.
* The process environment, the regexp and JSON packages, the Solr connection,
  the wall clock and the file `/etc/host_hostname` are outside the repository;
  they are parameters of the functions that use them.
* Code that can fail at run time returns the failure explicitly: an index out
  of range is a `panic`, `log.Fatal` is a `fatal` exit.
-/

namespace Solr

/-! ## Strings (package `strings`) -/

/-- The pieces of a character list between the occurrences of `sep`; there is
always at least one piece, and `n` occurrences give `n + 1` pieces. -/
def splitChars (sep : Char) : List Char → List (List Char)
  | [] => [[]]
  | c :: cs =>
    if c = sep then [] :: splitChars sep cs
    else
      match splitChars sep cs with
      | [] => [[c]]
      | seg :: segs => (c :: seg) :: segs

/-- Go `strings.Split(s, sep)` for a one-character separator, the only way the
program calls it (`","` and `"="`). -/
def strings.Split (s : String) (sep : Char) : List String :=
  (splitChars sep s.data).map String.mk

/-- Whether the character list `p` starts the character list `s`. -/
def startsWith : List Char → List Char → Bool
  | _, [] => true
  | [], _ :: _ => false
  | c :: cs, d :: ds => if c = d then startsWith cs ds else false

/-- Go `strings.HasPrefix(s, p)`. -/
def strings.HasPrefix (s p : String) : Bool :=
  startsWith s.data p.data

/-- Go `strings.TrimPrefix(s, p)`: `s` without the leading `p`, or `s` itself
when it does not start with `p`. -/
def strings.TrimPrefix (s p : String) : String :=
  if strings.HasPrefix s p then String.mk (s.data.drop p.data.length) else s

/-- Go `strings.Trim(s, cutset)`: `s` without the leading and trailing
characters that occur in `cutset`. -/
def strings.Trim (s cutset : String) : String :=
  String.mk
    (((s.data.dropWhile (fun c => cutset.data.contains c)).reverse.dropWhile
      (fun c => cutset.data.contains c)).reverse)

/-- Go `strings.Replace(s, old, new, -1)` for one-character `old` and `new`:
every occurrence is replaced. -/
def strings.Replace (s : String) (old new : Char) : String :=
  String.mk (s.data.map (fun c => if c = old then new else c))

/-- Go `strings.Join(elems, sep)`: the elements with `sep` between them. -/
def strings.Join (elems : List String) (sep : String) : String :=
  String.mk (List.intercalate sep.data (elems.map String.data))

/-! ## The process environment (package `os`) -/

/-- The environment of the process: the variables that are set, with their
values. -/
abbrev Environ := String → Option String

/-- Go `os.Getenv`: the value of the variable, `""` when it is not set. -/
def os.Getenv (env : Environ) (key : String) : String :=
  (env key).getD ""

/-! ## Go maps with string keys -/

/-- A Go `map[string]V`: its entries, in the order `range` visits them. -/
def GoMap (V : Type) : Type := List (String × V)

namespace GoMap

variable {V : Type}

/-- The map `make(map[string]V)`. -/
def empty : GoMap V := ([] : List (String × V))

/-- The lookup `v, ok := m[k]`; `none` stands for `ok == false`. -/
def get : GoMap V → String → Option V
  | [], _ => none
  | (k', v) :: rest, k => if k' = k then some v else get rest k

/-- The assignment `m[k] = v`: replaces the value of an existing key, adds the
key otherwise. -/
def set : GoMap V → String → V → GoMap V
  | [], k, v => [(k, v)]
  | (k', v') :: rest, k, v =>
    if k' = k then (k, v) :: rest else (k', v') :: set rest k v

/-- The entries `for k, v := range m` visits. -/
def entries (m : GoMap V) : List (String × V) := m

end GoMap

/-! ## The container filter -/

/-- The two functions of package `regexp` the filter calls, for an arbitrary
regular-expression engine with compiled expressions of type `R`. -/
structure RegexpPkg (R : Type) where
  /-- Go `regexp.Compile`: the compiled expression, or an error. -/
  Compile : String → Except String R
  /-- Go `(*Regexp).MatchString`. -/
  MatchString : R → String → Bool

/-- The loop of lines 259-264: `true` at the first entry equal to the name. -/
def containerIncluded.loop (inputContainerName : String) : List String → Bool
  | [] => false
  | containerName :: rest =>
    if inputContainerName = containerName then true
    else containerIncluded.loop inputContainerName rest

/-- Go `containerIncluded` (lines 257-279). -/
def containerIncluded {R : Type} (re : RegexpPkg R) (env : Environ)
    (inputContainerName : String) : Bool :=
  let includeContainers := os.Getenv env "INCLUDE_CONTAINERS"
  if includeContainers ≠ "" then
    containerIncluded.loop inputContainerName (strings.Split includeContainers ',')
  else
    let includeContainers := os.Getenv env "INCLUDE_CONTAINERS_REGEX"
    if includeContainers ≠ "" then
      match re.Compile includeContainers with
      | .error _ => true
      | .ok compiled =>
        if re.MatchString compiled inputContainerName then true else false
    else
      true

/-! ## Containers, messages and the adapter -/

/-- The fields of `docker.Config` the adapter reads.  `Labels` is a Go map; the
list gives its entries in the order `range` visits them. -/
structure Config where
  Hostname : String
  Image : String
  Env : List String
  Labels : GoMap String

/-- The fields of `docker.Container` the adapter reads (`Config` is taken to be
non-nil, as it is for every container the router reports). -/
structure Container where
  ID : String
  Name : String
  Config : Config

/-- The fields of `router.Message` the adapter reads. -/
structure Message where
  Container : Container
  Source : String
  Data : String

/-- The three caches of `SolrAdapter` (lines 28-34); the connection is part of
the `World` below and the route is never read. -/
structure SolrAdapter where
  containerTags : GoMap (List String)
  logstashFields : GoMap (GoMap String)
  decodeJsonLogs : GoMap Bool

/-- The caches of the adapter `NewSolrAdapter` returns (lines 63-69). -/
def SolrAdapter.new : SolrAdapter :=
  { containerTags := GoMap.empty, logstashFields := GoMap.empty, decodeJsonLogs := GoMap.empty }

/-! ## The per-container metadata lookups -/

/-- The loop of lines 82-87: the first entry that starts with
`LOGSTASH_TAGS=` replaces the string and ends the loop. -/
def GetContainerTags.scan (tagsStr : String) : List String → String
  | [] => tagsStr
  | e :: rest =>
    if strings.HasPrefix e "LOGSTASH_TAGS=" then strings.TrimPrefix e "LOGSTASH_TAGS="
    else GetContainerTags.scan tagsStr rest

/-- Go `GetContainerTags` (lines 74-95): the tags and the adapter afterwards. -/
def GetContainerTags (env : Environ) (c : Container) (a : SolrAdapter) :
    List String × SolrAdapter :=
  match a.containerTags.get c.ID with
  | some tags => (tags, a)
  | none =>
    let tagsStr := GetContainerTags.scan (os.Getenv env "LOGSTASH_TAGS") c.Config.Env
    let tags := if tagsStr.length > 0 then strings.Split tagsStr ',' else []
    (tags, { a with containerTags := a.containerTags.set c.ID tags })

/-- The loop of lines 106-110: every entry that starts with `LOGSTASH_FIELDS=`
replaces the string; the loop runs to the end of the list. -/
def GetLogstashFields.scan (fieldsStr : String) : List String → String
  | [] => fieldsStr
  | e :: rest =>
    if strings.HasPrefix e "LOGSTASH_FIELDS=" then
      GetLogstashFields.scan (strings.TrimPrefix e "LOGSTASH_FIELDS=") rest
    else GetLogstashFields.scan fieldsStr rest

/-- The loop of lines 113-117 over the comma-segments: `sp[0]` and `sp[1]` of
the segment split on `=`; indexing `sp[1]` in a slice of length one is a
run-time panic. -/
def GetLogstashFields.parse (fields : GoMap String) : List String → Except String (GoMap String)
  | [] => .ok fields
  | f :: rest =>
    let sp := strings.Split f '='
    match sp[0]?, sp[1]? with
    | some k, some v => GetLogstashFields.parse (fields.set k v) rest
    | _, _ => .error "runtime error: index out of range [1] with length 1"

/-- Go `GetLogstashFields` (lines 98-123): the field map or the panic, and the
adapter afterwards (a panic happens before the cache is written). -/
def GetLogstashFields (env : Environ) (c : Container) (a : SolrAdapter) :
    Except String (GoMap String) × SolrAdapter :=
  match a.logstashFields.get c.ID with
  | some fields => (.ok fields, a)
  | none =>
    let fieldsStr := GetLogstashFields.scan (os.Getenv env "LOGSTASH_FIELDS") c.Config.Env
    let parsed :=
      if fieldsStr.length > 0 then
        GetLogstashFields.parse GoMap.empty (strings.Split fieldsStr ',')
      else .ok GoMap.empty
    match parsed with
    | .error e => (.error e, a)
    | .ok fields => (.ok fields, { a with logstashFields := a.logstashFields.set c.ID fields })

/-- The loop of lines 134-138: every entry that starts with
`DECODE_JSON_LOGS=` replaces the string; the loop runs to the end of the list. -/
def IsDecodeJsonLogs.scan (decodeJsonLogsStr : String) : List String → String
  | [] => decodeJsonLogsStr
  | e :: rest =>
    if strings.HasPrefix e "DECODE_JSON_LOGS=" then
      IsDecodeJsonLogs.scan (strings.TrimPrefix e "DECODE_JSON_LOGS=") rest
    else IsDecodeJsonLogs.scan decodeJsonLogsStr rest

/-- Go `IsDecodeJsonLogs` (lines 127-145): the flag and the adapter afterwards. -/
def IsDecodeJsonLogs (env : Environ) (c : Container) (a : SolrAdapter) : Bool × SolrAdapter :=
  match a.decodeJsonLogs.get c.ID with
  | some decodeJsonLogs => (decodeJsonLogs, a)
  | none =>
    let decodeJsonLogsStr := IsDecodeJsonLogs.scan (os.Getenv env "DECODE_JSON_LOGS") c.Config.Env
    let decodeJsonLogs := decide (decodeJsonLogsStr ≠ "false")
    (decodeJsonLogs, { a with decodeJsonLogs := a.decodeJsonLogs.set c.ID decodeJsonLogs })

/-- One call of one of the three lookups, with the environment of the process
and the container as they are at the time of the call. -/
inductive Lookup where
  | tags (env : Environ) (c : Container)
  | fields (env : Environ) (c : Container)
  | decode (env : Environ) (c : Container)

/-- The adapter after the call. -/
def Lookup.run : Lookup → SolrAdapter → SolrAdapter
  | Lookup.tags env c, a => (GetContainerTags env c a).2
  | Lookup.fields env c, a => (GetLogstashFields env c a).2
  | Lookup.decode env c, a => (IsDecodeJsonLogs env c a).2

/-- The adapter after a sequence of calls, made in order. -/
def Lookup.runAll : List Lookup → SolrAdapter → SolrAdapter
  | [], a => a
  | op :: ops, a => Lookup.runAll ops (op.run a)

/-! ## Documents -/

/-- Go `DockerInfo` (lines 281-287); `Labels` is `none` for the nil map. -/
structure DockerInfo where
  Name : String
  ID : String
  Image : String
  Hostname : String
  Labels : Option (GoMap String)

/-- The values stored in the document `map[string]interface{}`: what
`json.Unmarshal` decoded (of an arbitrary type `J`), a string, the container
identity, or a list of strings. -/
inductive Value (J : Type) where
  | json (j : J)
  | str (s : String)
  | docker (d : DockerInfo)
  | strs (l : List String)

/-- The two functions of package `encoding/json` the adapter calls. -/
structure JsonPkg (J : Type) where
  /-- Go `json.Unmarshal(raw, &data)` for a nil `data`: the map afterwards
  (`none` when it is still nil) and the error (`none` for a nil error). -/
  Unmarshal : String → Option (GoMap (Value J)) × Option String
  /-- Go `json.Marshal(data)`: the encoding, or an error. -/
  Marshal : GoMap (Value J) → Except String String

/-- The external world of a run of the adapter. -/
structure World where
  /-- The error returned by the `n`-th call of `conn.Update` (counted from 0),
  `none` when the call succeeds. -/
  backend : Nat → Option String
  /-- The value of `time.Now().Unix()` read before the `n`-th call. -/
  clock : Nat → Int
  /-- The result of reading `/etc/host_hostname` while the `n`-th message is
  handled: its content, or `none` when the read fails. -/
  hostHostname : Nat → Option String

/-- What the adapter does to the outside, in order. -/
inductive Event where
  /-- The call `conn.Update(f, true)` with `f` holding one document
  `{"id": id, "data": data}` under `"add"`. -/
  | update (id : Int) (data : String)
  /-- The call `time.Sleep(d)`, `d` in nanoseconds. -/
  | sleep (d : Nat)
deriving DecidableEq

/-- The state of the running process: the adapter, the number of messages
received, the number of `Update` calls made, and the events so far. -/
structure Proc where
  adapter : SolrAdapter
  received : Nat
  calls : Nat
  trace : List Event

/-- How a run ends: the loop went on to completion (`done`), `log.Fatal` ended
the process, or a run-time panic did. -/
inductive Outcome where
  | done (p : Proc)
  | fatal (p : Proc) (msg : String)
  | panicked (p : Proc) (msg : String)

/-- Go `time.Second`, in nanoseconds. -/
def Second : Nat := 1000000000

/-- Go `GetContainerHostname` (lines 149-156), given the result of reading
`/etc/host_hostname`. -/
def GetContainerHostname (file : Option String) (c : Container) : String :=
  match file with
  | some content =>
    if content.length > 0 then strings.Trim content "\r\n" else c.Config.Hostname
  | none => c.Config.Hostname

/-- The loop of lines 176-178: each label is stored under its name with every
`.` replaced by `_`. -/
def Stream.labels (out : GoMap String) : List (String × String) → GoMap String
  | [] => out
  | (label, value) :: rest => Stream.labels (out.set (strings.Replace label '.' '_') value) rest

/-- The loop of lines 198-200: each field is stored in the document. -/
def Stream.overlay {J : Type} (data : GoMap (Value J)) : List (String × String) → GoMap (Value J)
  | [] => data
  | (k, v) :: rest => Stream.overlay (data.set k (Value.str v)) rest

/-- Lines 184-204 of `Stream`: the document for a raw line, given the decode
flag, the fields, the identity, the source stream and the tags. -/
def Stream.document {J : Type} (js : JsonPkg J) (decode : Bool) (raw : String)
    (fields : GoMap String) (dockerInfo : DockerInfo) (source : String)
    (tags : List String) : GoMap (Value J) :=
  let (data, err) : Option (GoMap (Value J)) × Option String :=
    if decode then js.Unmarshal raw else (none, none)
  let data : GoMap (Value J) :=
    match err, data with
    | none, some d => d
    | _, _ => GoMap.set GoMap.empty "message" (Value.str raw)
  let data := Stream.overlay data fields.entries
  let data := data.set "docker" (Value.docker dockerInfo)
  let data := data.set "stream" (Value.str source)
  data.set "tags" (Value.strs tags)

/-- The delivery loop of lines 217-251 for the bytes `js`, run for at most
`fuel` calls of `Update`; `none` when the fuel runs out. -/
def Stream.deliver (w : World) (env : Environ) (js : String) : Nat → Proc → Option Outcome
  | 0, _ => none
  | fuel + 1, p =>
    let p1 : Proc :=
      { p with calls := p.calls + 1, trace := p.trace ++ [Event.update (w.clock p.calls) js] }
    match w.backend p.calls with
    | none => some (Outcome.done p1)
    | some err =>
      if os.Getenv env "RETRY_SEND" = "" then
        some (Outcome.fatal p1 ("logstash: could not write:" ++ err))
      else
        Stream.deliver w env js fuel { p1 with trace := p1.trace ++ [Event.sleep (2 * Second)] }

/-- The events of `k` failed attempts of the delivery loop, the first of them
being the `n`-th call of `Update`: each is a write of `js` followed by a sleep
of two seconds. -/
def Stream.retries (w : World) (js : String) : Nat → Nat → List Event
  | _, 0 => []
  | n, k + 1 =>
    Event.update (w.clock n) js :: Event.sleep (2 * Second) :: Stream.retries w js (n + 1) k

/-- What lines 161-215 of `Stream` do with one message: skip it (`continue`),
panic, or hand the serialized document to the delivery loop. -/
inductive Prepared where
  | skip (p : Proc)
  | panicked (p : Proc) (msg : String)
  | send (p : Proc) (js : String)

/-- Lines 161-215 of `Stream` for one message: the filter, the identity, the
three lookups, the document and its serialization with the trailing newline. -/
def Stream.prepare {R J : Type} (re : RegexpPkg R) (js : JsonPkg J) (w : World) (env : Environ)
    (m : Message) (p : Proc) : Prepared :=
  let file := w.hostHostname p.received
  let p : Proc := { p with received := p.received + 1 }
  let dockerInfo : DockerInfo :=
    { Name := m.Container.Name, ID := m.Container.ID, Image := m.Container.Config.Image,
      Hostname := GetContainerHostname file m.Container, Labels := none }
  if !containerIncluded re env dockerInfo.Name then Prepared.skip p
  else
    let dockerInfo : DockerInfo :=
      if os.Getenv env "DOCKER_LABELS" ≠ "" then
        { dockerInfo with
          Labels := some (Stream.labels GoMap.empty m.Container.Config.Labels.entries) }
      else dockerInfo
    let (tags, a1) := GetContainerTags env m.Container p.adapter
    match GetLogstashFields env m.Container a1 with
    | (.error msg, a2) => Prepared.panicked { p with adapter := a2 } msg
    | (.ok fields, a2) =>
      let (decode, a3) := IsDecodeJsonLogs env m.Container a2
      let p : Proc := { p with adapter := a3 }
      let data := Stream.document js decode m.Data fields dockerInfo m.Source tags
      match js.Marshal data with
      | .error _ => Prepared.skip p
      | .ok bytes => Prepared.send p (bytes ++ "\n")

/-- The body of the loop of `Stream` (lines 161-251) for one message; `done`
means that the loop goes on to the next message. -/
def Stream.body {R J : Type} (re : RegexpPkg R) (js : JsonPkg J) (w : World) (env : Environ)
    (fuel : Nat) (m : Message) (p : Proc) : Option Outcome :=
  match Stream.prepare re js w env m p with
  | Prepared.skip p1 => some (Outcome.done p1)
  | Prepared.panicked p1 msg => some (Outcome.panicked p1 msg)
  | Prepared.send p1 bytes => Stream.deliver w env bytes fuel p1

/-- Go `(*SolrAdapter).Stream` (lines 159-253) on the messages the channel
delivers before it is closed; each delivery loop may call `Update` at most
`fuel` times. -/
def Stream {R J : Type} (re : RegexpPkg R) (js : JsonPkg J) (w : World) (env : Environ)
    (fuel : Nat) : List Message → Proc → Option Outcome
  | [], p => some (Outcome.done p)
  | m :: rest, p =>
    match Stream.body re js w env fuel m p with
    | some (Outcome.done p1) => Stream re js w env fuel rest p1
    | other => other

/-! ## Sample inputs -/

/-- A small stand-in for package `regexp`: every expression but `"("` compiles,
and a compiled expression matches the names that start with it. -/
def sampleRegexp : RegexpPkg String :=
  { Compile := fun s => if s = "(" then .error "missing closing )" else .ok s
    MatchString := fun r s => strings.HasPrefix s r }

/-- An environment with `INCLUDE_CONTAINERS=a,b` and a regex that is not used. -/
def envList : Environ := fun k =>
  if k = "INCLUDE_CONTAINERS" then some "a,b"
  else if k = "INCLUDE_CONTAINERS_REGEX" then some "c" else none

/-- An environment with only `INCLUDE_CONTAINERS_REGEX=svc-`. -/
def envRegex : Environ := fun k =>
  if k = "INCLUDE_CONTAINERS_REGEX" then some "svc-" else none

/-- An environment with only `INCLUDE_CONTAINERS_REGEX=(`, which does not
compile. -/
def envBadRegex : Environ := fun k =>
  if k = "INCLUDE_CONTAINERS_REGEX" then some "(" else none

/-- The environment in which no variable is set. -/
def envNone : Environ := fun _ => none

/-- A container with the given ID and environment list. -/
def sampleContainer (id : String) (env : List String) : Container :=
  { ID := id, Name := "web",
    Config := { Hostname := "host1", Image := "img", Env := env, Labels := GoMap.empty } }

/-- An environment with `LOGSTASH_TAGS=g1,g2`, `LOGSTASH_FIELDS=a=b=c` and
`DECODE_JSON_LOGS=false`. -/
def envGlobal : Environ := fun k =>
  if k = "LOGSTASH_TAGS" then some "g1,g2"
  else if k = "LOGSTASH_FIELDS" then some "a=b=c"
  else if k = "DECODE_JSON_LOGS" then some "false" else none

/-- The container of the first lookups of the caching example. -/
def cacheFirst : Container :=
  sampleContainer "c1" ["LOGSTASH_TAGS=x", "LOGSTASH_FIELDS=k=v"]

/-- The same container ID later, with a different environment list. -/
def cacheLater : Container :=
  sampleContainer "c1" ["LOGSTASH_TAGS=other", "LOGSTASH_FIELDS=z=w", "DECODE_JSON_LOGS=no"]

/-- Lookups made in between, for another container and for the same one. -/
def cacheBetween : List Lookup :=
  [Lookup.tags envNone (sampleContainer "c2" ["LOGSTASH_TAGS=t2"]),
   Lookup.fields envNone cacheLater, Lookup.decode envNone cacheLater,
   Lookup.tags envNone cacheLater, Lookup.fields envGlobal (sampleContainer "c2" [])]

/-- A small stand-in for package `encoding/json`: only `{}` decodes (to the
empty object), and a document is encoded as the list of its keys. -/
def sampleJson : JsonPkg Unit :=
  { Unmarshal := fun raw =>
      if raw = "{}" then (some GoMap.empty, none) else (none, some "invalid character")
    Marshal := fun doc => .ok (strings.Join (doc.entries.map Prod.fst) ",") }

/-- A world in which the first call of `Update` fails and the later ones
succeed, the clock shows `100 + n` at the `n`-th call, and there is no file
`/etc/host_hostname`. -/
def sampleWorld : World :=
  { backend := fun n => if n = 0 then some "connection refused" else none
    clock := fun n => 100 + (n : Int)
    hostHostname := fun _ => none }

/-- An environment with only `RETRY_SEND=1`. -/
def envRetry : Environ := fun k => if k = "RETRY_SEND" then some "1" else none

/-- A message of the container `c1` on `stdout`. -/
def sampleMessage (data : String) : Message :=
  { Container := sampleContainer "c1" [], Source := "stdout", Data := data }

/-- The process before the first message. -/
def procStart : Proc :=
  { adapter := SolrAdapter.new, received := 0, calls := 0, trace := [] }

/-- The process when the first message of `c1` has been prepared: the three
caches hold the values of `c1`. -/
def procPrepared : Proc :=
  { adapter :=
      { containerTags := GoMap.set GoMap.empty "c1" []
        logstashFields := GoMap.set GoMap.empty "c1" GoMap.empty
        decodeJsonLogs := GoMap.set GoMap.empty "c1" true }
    received := 1, calls := 0, trace := [] }

/-- An environment with only `LOGSTASH_FIELDS=message=x`. -/
def envMessageField : Environ := fun k =>
  if k = "LOGSTASH_FIELDS" then some "message=x" else none

/-- A container identity. -/
def sampleDockerInfo : DockerInfo :=
  { Name := "web", ID := "c1", Image := "img", Hostname := "host1", Labels := none }

/-! ## Lemmas on strings and maps -/

theorem splitChars_ne_nil (sep : Char) (s : List Char) : splitChars sep s ≠ [] := by
  induction s with
  | nil => simp [splitChars]
  | cons c cs ih =>
    unfold splitChars
    split
    · simp
    · split <;> simp

theorem intercalate_cons_of_ne_nil {α : Type} (sep x : List α) (l : List (List α))
    (h : l ≠ []) : List.intercalate sep (x :: l) = x ++ sep ++ List.intercalate sep l := by
  cases l with
  | nil => exact absurd rfl h
  | cons y ys => simp [List.intercalate, List.intersperse]

theorem intercalate_splitChars (sep : Char) (s : List Char) :
    List.intercalate [sep] (splitChars sep s) = s := by
  induction s with
  | nil => simp [splitChars, List.intercalate]
  | cons c cs ih =>
    unfold splitChars
    split
    · next h =>
      rw [intercalate_cons_of_ne_nil _ _ _ (splitChars_ne_nil sep cs), ih]
      simp [h]
    · next h =>
      cases hs : splitChars sep cs with
      | nil => exact absurd hs (splitChars_ne_nil sep cs)
      | cons seg segs =>
        rw [hs] at ih
        cases segs with
        | nil =>
          simp [List.intercalate, List.intersperse] at ih ⊢
          exact ih
        | cons y ys =>
          rw [intercalate_cons_of_ne_nil _ _ _ (by simp)] at ih ⊢
          simp at ih ⊢
          exact ih

theorem not_mem_of_mem_splitChars (sep : Char) (s seg : List Char)
    (h : seg ∈ splitChars sep s) : sep ∉ seg := by
  induction s generalizing seg with
  | nil =>
    simp [splitChars] at h
    simp [h]
  | cons c cs ih =>
    unfold splitChars at h
    split at h
    · rcases List.mem_cons.mp h with h1 | h1
      · simp [h1]
      · exact ih seg h1
    · next hc =>
      cases hs : splitChars sep cs with
      | nil => exact absurd hs (splitChars_ne_nil sep cs)
      | cons y ys =>
        rw [hs] at h ih
        rcases List.mem_cons.mp h with h1 | h1
        · subst h1
          have hy := ih y (List.mem_cons_self _ _)
          intro hmem
          rcases List.mem_cons.mp hmem with h2 | h2
          · exact hc h2.symm
          · exact hy h2
        · exact ih seg (List.mem_cons_of_mem _ h1)

theorem join_split (s : String) (sep : Char) :
    strings.Join (strings.Split s sep) (String.singleton sep) = s := by
  unfold strings.Join strings.Split
  have h : List.map String.data (List.map String.mk (splitChars sep s.data)) =
      splitChars sep s.data := by
    rw [List.map_map]
    exact List.map_id _
  rw [h]
  have h2 : (String.singleton sep).data = [sep] := rfl
  rw [h2, intercalate_splitChars]

theorem not_mem_of_mem_split (s : String) (sep : Char) (e : String)
    (h : e ∈ strings.Split s sep) : sep ∉ e.data := by
  unfold strings.Split at h
  rcases List.mem_map.mp h with ⟨seg, hseg, rfl⟩
  exact not_mem_of_mem_splitChars sep s.data seg hseg

theorem loop_eq_true_iff (name : String) (l : List String) :
    containerIncluded.loop name l = true ↔ name ∈ l := by
  induction l with
  | nil => simp [containerIncluded.loop]
  | cons x xs ih =>
    unfold containerIncluded.loop
    by_cases h : name = x
    · simp [h]
    · simp [h, ih]

namespace GoMap

variable {V : Type}

theorem get_empty (k : String) : (GoMap.empty : GoMap V).get k = none := rfl

theorem get_set_self (m : GoMap V) (k : String) (v : V) : (m.set k v).get k = some v := by
  induction m with
  | nil => simp [set, get]
  | cons e rest ih =>
    obtain ⟨k', v'⟩ := e
    unfold set
    by_cases h : k' = k
    · simp [h, get]
    · simp [h, get, ih]

theorem get_set_ne (m : GoMap V) (k k' : String) (v : V) (h : k' ≠ k) :
    (m.set k v).get k' = m.get k' := by
  induction m with
  | nil => simp [set, get, Ne.symm h]
  | cons e rest ih =>
    obtain ⟨k0, v0⟩ := e
    unfold set
    by_cases h0 : k0 = k
    · subst h0
      simp [get, Ne.symm h]
    · simp [h0, get, ih]

theorem get_set (m : GoMap V) (k k' : String) (v : V) :
    (m.set k v).get k' = if k' = k then some v else m.get k' := by
  by_cases h : k' = k
  · subst h
    simp [get_set_self]
  · simp [h, get_set_ne m k k' v h]

end GoMap

/-! ## The container filter -/

/-- C1: when `INCLUDE_CONTAINERS` is not empty, `containerIncluded` is true
exactly for the names equal to one of its comma-separated entries, whatever the
regex variable and the regex engine are.  The entries are the pieces
`strings.Split` returns: joined with commas they give the value back, and none
of them contains a comma. -/
theorem containerIncluded_list {R : Type} (re : RegexpPkg R) (env : Environ) (name : String)
    (h : os.Getenv env "INCLUDE_CONTAINERS" ≠ "") :
    (containerIncluded re env name = true ↔
      name ∈ strings.Split (os.Getenv env "INCLUDE_CONTAINERS") ',') ∧
    strings.Join (strings.Split (os.Getenv env "INCLUDE_CONTAINERS") ',') "," =
      os.Getenv env "INCLUDE_CONTAINERS" ∧
    ∀ e ∈ strings.Split (os.Getenv env "INCLUDE_CONTAINERS") ',', ',' ∉ e.data := by
  refine ⟨?_, join_split _ ',', fun e he => not_mem_of_mem_split _ _ e he⟩
  unfold containerIncluded
  simp only [h, ne_eq, not_false_eq_true, if_true]
  exact loop_eq_true_iff _ _

/-- With the list `a,b` (and a regex set as well), `a` is included and `c` and
the empty name are not. -/
theorem containerIncluded_list_witness :
    os.Getenv envList "INCLUDE_CONTAINERS" ≠ "" ∧
    containerIncluded sampleRegexp envList "a" = true ∧
    containerIncluded sampleRegexp envList "c" = false ∧
    containerIncluded sampleRegexp envList "" = false :=
  ⟨by decide,
   (containerIncluded_list sampleRegexp envList "a" (by decide)).1.mpr (by decide),
   Bool.eq_false_iff.mpr fun hc =>
     absurd ((containerIncluded_list sampleRegexp envList "c" (by decide)).1.mp hc) (by decide),
   Bool.eq_false_iff.mpr fun hc =>
     absurd ((containerIncluded_list sampleRegexp envList "" (by decide)).1.mp hc) (by decide)⟩

/-- C2: when `INCLUDE_CONTAINERS` is unset or empty, `containerIncluded` is
true if `INCLUDE_CONTAINERS_REGEX` is unset or empty, true if the regex does not
compile, and otherwise exactly the result of matching the compiled regex
against the name. -/
theorem containerIncluded_regex {R : Type} (re : RegexpPkg R) (env : Environ) (name : String)
    (h : os.Getenv env "INCLUDE_CONTAINERS" = "") :
    (os.Getenv env "INCLUDE_CONTAINERS_REGEX" = "" → containerIncluded re env name = true) ∧
    (∀ err, re.Compile (os.Getenv env "INCLUDE_CONTAINERS_REGEX") = .error err →
      containerIncluded re env name = true) ∧
    (∀ compiled, os.Getenv env "INCLUDE_CONTAINERS_REGEX" ≠ "" →
      re.Compile (os.Getenv env "INCLUDE_CONTAINERS_REGEX") = .ok compiled →
      containerIncluded re env name = re.MatchString compiled name) := by
  refine ⟨?_, ?_, ?_⟩
  · intro h2
    simp [containerIncluded, h, h2]
  · intro err h2
    by_cases h3 : os.Getenv env "INCLUDE_CONTAINERS_REGEX" = ""
    · simp [containerIncluded, h, h3]
    · simp [containerIncluded, h, h3, h2]
  · intro compiled h3 h2
    simp [containerIncluded, h, h3, h2]

/-- With only the regex `svc-` set, `svc-1` is included and `other` is not;
with only a regex that does not compile, every name is included; with nothing
set, every name is included. -/
theorem containerIncluded_regex_witness :
    os.Getenv envRegex "INCLUDE_CONTAINERS" = "" ∧
    containerIncluded sampleRegexp envRegex "svc-1" = true ∧
    containerIncluded sampleRegexp envRegex "other" = false ∧
    containerIncluded sampleRegexp envBadRegex "other" = true ∧
    containerIncluded sampleRegexp envNone "other" = true :=
  ⟨by decide,
   ((containerIncluded_regex sampleRegexp envRegex "svc-1" (by decide)).2.2 "svc-"
      (by decide) rfl).trans (by decide),
   ((containerIncluded_regex sampleRegexp envRegex "other" (by decide)).2.2 "svc-"
      (by decide) rfl).trans (by decide),
   (containerIncluded_regex sampleRegexp envBadRegex "other" (by decide)).2.1
      "missing closing )" rfl,
   (containerIncluded_regex sampleRegexp envNone "other" (by decide)).1 (by decide)⟩

/-! ## The per-container lookups on a cache miss -/

theorem length_pos_iff (s : String) : s.length > 0 ↔ s ≠ "" := by
  obtain ⟨d⟩ := s
  cases d with
  | nil =>
    constructor
    · intro h
      exact absurd h (by simp [String.length])
    · intro h
      exact absurd rfl h
  | cons c cs =>
    constructor
    · intro _ h
      have h2 := congrArg String.data h
      simp at h2
    · intro _
      simp [String.length]

theorem tags_scan_eq (init : String) (l : List String) :
    GetContainerTags.scan init l =
      match l.find? (fun e => strings.HasPrefix e "LOGSTASH_TAGS=") with
      | some e => strings.TrimPrefix e "LOGSTASH_TAGS="
      | none => init := by
  induction l with
  | nil => simp [GetContainerTags.scan]
  | cons e rest ih =>
    unfold GetContainerTags.scan
    by_cases h : strings.HasPrefix e "LOGSTASH_TAGS=" = true
    · simp [h]
    · simp [h, ih]

theorem fields_scan_eq (init : String) (l : List String) :
    GetLogstashFields.scan init l =
      match l.reverse.find? (fun e => strings.HasPrefix e "LOGSTASH_FIELDS=") with
      | some e => strings.TrimPrefix e "LOGSTASH_FIELDS="
      | none => init := by
  induction l generalizing init with
  | nil => simp [GetLogstashFields.scan]
  | cons e rest ih =>
    unfold GetLogstashFields.scan
    by_cases h : strings.HasPrefix e "LOGSTASH_FIELDS=" = true
    · simp only [h, if_true, ih, List.reverse_cons, List.find?_append, List.find?_singleton]
      cases List.find? (fun e => strings.HasPrefix e "LOGSTASH_FIELDS=") rest.reverse <;> simp
    · simp only [h, ih, List.reverse_cons, List.find?_append, List.find?_singleton]
      cases List.find? (fun e => strings.HasPrefix e "LOGSTASH_FIELDS=") rest.reverse <;> simp

theorem decode_scan_eq (init : String) (l : List String) :
    IsDecodeJsonLogs.scan init l =
      match l.reverse.find? (fun e => strings.HasPrefix e "DECODE_JSON_LOGS=") with
      | some e => strings.TrimPrefix e "DECODE_JSON_LOGS="
      | none => init := by
  induction l generalizing init with
  | nil => simp [IsDecodeJsonLogs.scan]
  | cons e rest ih =>
    unfold IsDecodeJsonLogs.scan
    by_cases h : strings.HasPrefix e "DECODE_JSON_LOGS=" = true
    · simp only [h, if_true, ih, List.reverse_cons, List.find?_append, List.find?_singleton]
      cases List.find? (fun e => strings.HasPrefix e "DECODE_JSON_LOGS=") rest.reverse <;> simp
    · simp only [h, ih, List.reverse_cons, List.find?_append, List.find?_singleton]
      cases List.find? (fun e => strings.HasPrefix e "DECODE_JSON_LOGS=") rest.reverse <;> simp

theorem startsWith_iff (s p : List Char) : startsWith s p = true ↔ ∃ t, s = p ++ t := by
  induction p generalizing s with
  | nil => simp [startsWith]
  | cons d ds ih =>
    cases s with
    | nil => simp [startsWith]
    | cons c cs =>
      unfold startsWith
      by_cases h : c = d
      · subst h
        simp [ih]
      · simp [h]

theorem hasPrefix_iff (e p : String) : strings.HasPrefix e p = true ↔ ∃ v, e = p ++ v := by
  unfold strings.HasPrefix
  rw [startsWith_iff]
  constructor
  · rintro ⟨t, ht⟩
    refine ⟨String.mk t, ?_⟩
    apply String.ext
    simp [ht]
  · rintro ⟨v, rfl⟩
    exact ⟨v.data, by simp⟩

theorem hasPrefix_append (p v : String) : strings.HasPrefix (p ++ v) p = true :=
  (hasPrefix_iff _ _).mpr ⟨v, rfl⟩

theorem trimPrefix_append (p v : String) : strings.TrimPrefix (p ++ v) p = v := by
  unfold strings.TrimPrefix
  rw [if_pos (hasPrefix_append p v)]
  apply String.ext
  simp

theorem hasPrefix_eq_false (e p : String) (h : ∀ v, e ≠ p ++ v) :
    strings.HasPrefix e p = false := by
  cases hp : strings.HasPrefix e p with
  | false => rfl
  | true =>
    obtain ⟨v, hv⟩ := (hasPrefix_iff e p).mp hp
    exact absurd hv (h v)

theorem find_first {α : Type} (p : α → Bool) (pre post : List α) (x : α)
    (hpre : ∀ e ∈ pre, p e = false) (hx : p x = true) :
    (pre ++ x :: post).find? p = some x := by
  induction pre with
  | nil => simp [hx]
  | cons y ys ih =>
    have hy : p y = false := hpre y (List.mem_cons_self _ _)
    simp only [List.cons_append, List.find?_cons, hy]
    exact ih (fun e he => hpre e (List.mem_cons_of_mem _ he))

theorem find_none {α : Type} (p : α → Bool) (l : List α) (h : ∀ e ∈ l, p e = false) :
    l.find? p = none := by
  rw [List.find?_eq_none]
  intro e he
  simp [h e he]

theorem find_last {α : Type} (p : α → Bool) (pre post : List α) (x : α)
    (hpost : ∀ e ∈ post, p e = false) (hx : p x = true) :
    (pre ++ x :: post).reverse.find? p = some x := by
  have h1 : (pre ++ x :: post).reverse = post.reverse ++ x :: pre.reverse := by simp
  rw [h1]
  exact find_first p post.reverse pre.reverse x
    (fun e he => hpost e (List.mem_reverse.mp he)) hx

/-- C10: on a cache miss `GetContainerTags` returns the effective tags string
split on commas, in order, and the empty list when that string is empty.  The
effective string is the value of the first `LOGSTASH_TAGS=` entry of the
container's environment when there is one (the global value is then not used at
all), and the global `LOGSTASH_TAGS` value otherwise. -/
theorem GetContainerTags_miss (env : Environ) (c : Container) (a : SolrAdapter)
    (h : a.containerTags.get c.ID = none) :
    (∀ pre value post, c.Config.Env = pre ++ ("LOGSTASH_TAGS=" ++ value) :: post →
      (∀ e ∈ pre, ∀ v, e ≠ "LOGSTASH_TAGS=" ++ v) →
      (GetContainerTags env c a).1 = if value = "" then [] else strings.Split value ',') ∧
    ((∀ e ∈ c.Config.Env, ∀ v, e ≠ "LOGSTASH_TAGS=" ++ v) →
      (GetContainerTags env c a).1 =
        if os.Getenv env "LOGSTASH_TAGS" = "" then []
        else strings.Split (os.Getenv env "LOGSTASH_TAGS") ',') := by
  have key : ∀ eff, GetContainerTags.scan (os.Getenv env "LOGSTASH_TAGS") c.Config.Env = eff →
      (GetContainerTags env c a).1 = if eff = "" then [] else strings.Split eff ',' := by
    intro eff heff
    unfold GetContainerTags
    simp only [h, heff]
    by_cases he : eff = ""
    · have : ¬ eff.length > 0 := fun hl => (length_pos_iff eff).mp hl he
      simp [he, this]
    · have : eff.length > 0 := (length_pos_iff eff).mpr he
      simp [he, this]
  constructor
  · intro pre value post hEnv hpre
    apply key
    rw [tags_scan_eq, hEnv,
      find_first _ pre post _ (fun e he => hasPrefix_eq_false e _ (hpre e he))
        (hasPrefix_append _ _)]
    exact trimPrefix_append _ _
  · intro hnone
    apply key
    rw [tags_scan_eq, find_none _ _ (fun e he => hasPrefix_eq_false e _ (hnone e he))]

/-- A container override `x,y` (the first of two) replaces the global `g1,g2`;
an empty override gives the empty list; without an override the global value is
split. -/
theorem GetContainerTags_miss_witness :
    SolrAdapter.new.containerTags.get "c1" = none ∧
    (GetContainerTags envGlobal
      (sampleContainer "c1" ["A=1", "LOGSTASH_TAGS=x,y", "LOGSTASH_TAGS=z"]) SolrAdapter.new).1 =
      ["x", "y"] ∧
    (GetContainerTags envGlobal (sampleContainer "c1" ["LOGSTASH_TAGS="]) SolrAdapter.new).1 =
      [] ∧
    (GetContainerTags envGlobal (sampleContainer "c1" ["A=1"]) SolrAdapter.new).1 =
      ["g1", "g2"] :=
  ⟨rfl,
   ((GetContainerTags_miss envGlobal
      (sampleContainer "c1" ["A=1", "LOGSTASH_TAGS=x,y", "LOGSTASH_TAGS=z"]) SolrAdapter.new
      rfl).1 ["A=1"] "x,y" ["LOGSTASH_TAGS=z"] (by decide)
      (by intro e he v; simp at he; subst he; intro hv
          have := congrArg (fun t => t.data.head?) hv; simp at this)).trans (by decide),
   ((GetContainerTags_miss envGlobal (sampleContainer "c1" ["LOGSTASH_TAGS="]) SolrAdapter.new
      rfl).1 [] "" [] (by decide) (by simp)).trans (by decide),
   ((GetContainerTags_miss envGlobal (sampleContainer "c1" ["A=1"]) SolrAdapter.new
      rfl).2 (by intro e he v; simp [sampleContainer] at he; subst he; intro hv
                 have := congrArg (fun t => t.data.head?) hv; simp at this)).trans (by decide)⟩

/-- C7: on a cache miss `IsDecodeJsonLogs` returns false exactly when the
effective setting is the string `false`.  The effective setting is the value of
the last `DECODE_JSON_LOGS=` entry of the container's environment when there is
one, and the global `DECODE_JSON_LOGS` value otherwise; when nothing is set
anywhere the result is true. -/
theorem IsDecodeJsonLogs_miss (env : Environ) (c : Container) (a : SolrAdapter)
    (h : a.decodeJsonLogs.get c.ID = none) :
    (∀ pre value post, c.Config.Env = pre ++ ("DECODE_JSON_LOGS=" ++ value) :: post →
      (∀ e ∈ post, ∀ v, e ≠ "DECODE_JSON_LOGS=" ++ v) →
      ((IsDecodeJsonLogs env c a).1 = false ↔ value = "false")) ∧
    ((∀ e ∈ c.Config.Env, ∀ v, e ≠ "DECODE_JSON_LOGS=" ++ v) →
      ((IsDecodeJsonLogs env c a).1 = false ↔ os.Getenv env "DECODE_JSON_LOGS" = "false")) ∧
    ((∀ e ∈ c.Config.Env, ∀ v, e ≠ "DECODE_JSON_LOGS=" ++ v) →
      env "DECODE_JSON_LOGS" = none → (IsDecodeJsonLogs env c a).1 = true) := by
  have key : ∀ eff, IsDecodeJsonLogs.scan (os.Getenv env "DECODE_JSON_LOGS") c.Config.Env = eff →
      ((IsDecodeJsonLogs env c a).1 = false ↔ eff = "false") := by
    intro eff heff
    unfold IsDecodeJsonLogs
    simp only [h, heff]
    simp
  refine ⟨?_, ?_, ?_⟩
  · intro pre value post hEnv hpost
    apply key
    rw [decode_scan_eq, hEnv,
      find_last _ pre post _ (fun e he => hasPrefix_eq_false e _ (hpost e he))
        (hasPrefix_append _ _)]
    exact trimPrefix_append _ _
  · intro hnone
    apply key
    rw [decode_scan_eq, find_none _ _ (fun e he => hasPrefix_eq_false e _
      (hnone e (List.mem_reverse.mp he)))]
  · intro hnone hunset
    have hk := key (os.Getenv env "DECODE_JSON_LOGS") (by
      rw [decode_scan_eq, find_none _ _ (fun e he => hasPrefix_eq_false e _
        (hnone e (List.mem_reverse.mp he)))])
    have hg : os.Getenv env "DECODE_JSON_LOGS" = "" := by simp [os.Getenv, hunset]
    cases hr : (IsDecodeJsonLogs env c a).1 with
    | true => rfl
    | false =>
      have := hk.mp hr
      rw [hg] at this
      exact absurd this (by decide)

/-- With nothing set the flag is true; the overrides `0` and `no` give true even
when the global value is `false`; the override `false` gives false; the global
value `false` gives false. -/
theorem IsDecodeJsonLogs_miss_witness :
    SolrAdapter.new.decodeJsonLogs.get "c1" = none ∧
    (IsDecodeJsonLogs envNone (sampleContainer "c1" []) SolrAdapter.new).1 = true ∧
    (IsDecodeJsonLogs envGlobal (sampleContainer "c1" ["DECODE_JSON_LOGS=0"])
      SolrAdapter.new).1 = true ∧
    (IsDecodeJsonLogs envGlobal (sampleContainer "c1" ["DECODE_JSON_LOGS=no"])
      SolrAdapter.new).1 = true ∧
    (IsDecodeJsonLogs envNone (sampleContainer "c1" ["DECODE_JSON_LOGS=false"])
      SolrAdapter.new).1 = false ∧
    (IsDecodeJsonLogs envGlobal (sampleContainer "c1" []) SolrAdapter.new).1 = false :=
  ⟨rfl,
   (IsDecodeJsonLogs_miss envNone (sampleContainer "c1" []) SolrAdapter.new rfl).2.2
     (by simp [sampleContainer]) rfl,
   Bool.of_not_eq_false fun hf => absurd
     (((IsDecodeJsonLogs_miss envGlobal (sampleContainer "c1" ["DECODE_JSON_LOGS=0"])
       SolrAdapter.new rfl).1 [] "0" [] (by decide) (by simp)).mp hf) (by decide),
   Bool.of_not_eq_false fun hf => absurd
     (((IsDecodeJsonLogs_miss envGlobal (sampleContainer "c1" ["DECODE_JSON_LOGS=no"])
       SolrAdapter.new rfl).1 [] "no" [] (by decide) (by simp)).mp hf) (by decide),
   ((IsDecodeJsonLogs_miss envNone (sampleContainer "c1" ["DECODE_JSON_LOGS=false"])
       SolrAdapter.new rfl).1 [] "false" [] (by decide) (by simp)).mpr rfl,
   ((IsDecodeJsonLogs_miss envGlobal (sampleContainer "c1" []) SolrAdapter.new rfl).2.1
     (by simp [sampleContainer])).mpr (by decide)⟩

/-! ## Parsing the fields string -/

theorem splitChars_eq (sep : Char) (s : List Char) :
    splitChars sep s = s.takeWhile (fun c => c != sep) ::
      (if sep ∈ s then splitChars sep ((s.dropWhile (fun c => c != sep)).drop 1) else []) := by
  induction s with
  | nil => simp [splitChars]
  | cons c cs ih =>
    by_cases h : c = sep
    · subst h
      simp [splitChars]
    · have h2 : ¬ sep = c := fun e => h e.symm
      simp only [splitChars, h, if_false]
      rw [ih]
      simp [h, h2, List.takeWhile_cons, List.dropWhile_cons]

theorem not_mem_takeWhile (sep : Char) (s : List Char) :
    sep ∉ s.takeWhile (fun c => c != sep) := by
  intro h
  have := List.mem_takeWhile_imp h
  simp at this

theorem dropWhile_cases (sep : Char) (s : List Char) :
    (s.dropWhile (fun c => c != sep) = [] ∧ sep ∉ s) ∨
    ∃ r, s.dropWhile (fun c => c != sep) = sep :: r := by
  induction s with
  | nil => simp
  | cons c cs ih =>
    by_cases h : c = sep
    · subst h
      right
      exact ⟨cs, by simp [List.dropWhile_cons]⟩
    · have h2 : ¬ sep = c := fun e => h e.symm
      simp only [List.dropWhile_cons, bne_iff_ne, ne_eq, h, not_false_eq_true, decide_True,
        if_true, List.mem_cons, h2, false_or]
      exact ih

theorem split_zero (s : String) (sep : Char) :
    (strings.Split s sep)[0]? = some (String.mk (s.data.takeWhile (fun c => c != sep))) := by
  unfold strings.Split
  rw [splitChars_eq]
  simp

theorem split_one_of_mem (s : String) (sep : Char) (h : sep ∈ s.data) :
    (strings.Split s sep)[1]? = some (String.mk
      (((s.data.dropWhile (fun c => c != sep)).drop 1).takeWhile (fun c => c != sep))) := by
  unfold strings.Split
  rw [splitChars_eq, if_pos h, splitChars_eq]
  simp

theorem split_one_of_not_mem (s : String) (sep : Char) (h : sep ∉ s.data) :
    (strings.Split s sep)[1]? = none := by
  unfold strings.Split
  rw [splitChars_eq, if_neg h]
  simp

theorem parse_ok (segs : List String) (fields : GoMap String)
    (h : ∀ seg ∈ segs, '=' ∈ seg.data) :
    GetLogstashFields.parse fields segs = .ok
      ((segs.map (fun seg : String =>
          (String.mk (seg.data.takeWhile (fun c => c != '=')),
           String.mk (((seg.data.dropWhile (fun c => c != '=')).drop 1).takeWhile
             (fun c => c != '='))))).foldl
        (fun m kv => m.set kv.1 kv.2) fields) := by
  induction segs generalizing fields with
  | nil => simp [GetLogstashFields.parse]
  | cons seg rest ih =>
    have hseg : '=' ∈ seg.data := h seg (List.mem_cons_self _ _)
    rw [GetLogstashFields.parse]
    simp only [split_zero, split_one_of_mem seg '=' hseg]
    rw [ih _ (fun s hs => h s (List.mem_cons_of_mem _ hs))]
    simp

theorem parse_error (segs : List String) (fields : GoMap String)
    (h : ∃ seg ∈ segs, '=' ∉ seg.data) :
    ∃ msg, GetLogstashFields.parse fields segs = .error msg := by
  induction segs generalizing fields with
  | nil =>
    obtain ⟨seg, hmem, _⟩ := h
    simp at hmem
  | cons seg rest ih =>
    rw [GetLogstashFields.parse]
    by_cases hseg : '=' ∈ seg.data
    · simp only [split_zero, split_one_of_mem seg '=' hseg]
      apply ih
      obtain ⟨bad, hmem, hbad⟩ := h
      rcases List.mem_cons.mp hmem with h1 | h1
      · subst h1
        exact absurd hseg hbad
      · exact ⟨bad, h1, hbad⟩
    · simp only [split_zero, split_one_of_not_mem seg '=' hseg]
      exact ⟨_, rfl⟩

theorem segment_decompose (seg : String) (h : '=' ∈ seg.data) :
    ∃ rest : String,
      seg = String.mk (seg.data.takeWhile (fun c => c != '=')) ++ "=" ++
        String.mk (((seg.data.dropWhile (fun c => c != '=')).drop 1).takeWhile
          (fun c => c != '=')) ++ rest ∧
      (rest = "" ∨ ∃ r, rest = "=" ++ r) := by
  rcases dropWhile_cases '=' seg.data with ⟨_, h1⟩ | ⟨r, hr⟩
  · exact absurd h h1
  · refine ⟨String.mk (r.dropWhile (fun c => c != '=')), ?_, ?_⟩
    · apply String.ext
      have e1 := (List.takeWhile_append_dropWhile (fun c => c != '=') seg.data).symm
      have e2 := (List.takeWhile_append_dropWhile (fun c => c != '=') r).symm
      have e3 : ("=" : String).data = ['='] := rfl
      simp only [String.data_append, hr, List.drop_succ_cons, List.drop_zero, e3]
      rw [hr] at e1
      rw [List.append_assoc, List.append_assoc, List.singleton_append, ← e2]
      exact e1
    · rcases dropWhile_cases '=' r with ⟨h2, _⟩ | ⟨r2, hr2⟩
      · left
        rw [h2]
      · right
        refine ⟨String.mk r2, ?_⟩
        rw [hr2]
        rfl

theorem scan_ne_empty_of_segments (eff : String)
    (hseg : ∀ seg ∈ strings.Split eff ',', '=' ∈ seg.data) : eff ≠ "" := by
  intro he
  subst he
  have := hseg "" (by decide)
  simp at this

/-- What lines 113-117 compute when every comma-segment of the fields string
contains an `=`: the map built by storing, for each comma-segment in order, the
pieces `sp[0]` and `sp[1]` of the segment split on every `=`.  The segment is
`sp[0]`, `=`, `sp[1]` and then either nothing or a further `=` followed by more
text, so whatever follows a second `=` is in neither the key nor the value. -/
theorem parse_keeps_two_pieces (env : Environ) (c : Container) (a : SolrAdapter)
    (h : a.logstashFields.get c.ID = none)
    (hseg : ∀ seg ∈ strings.Split
      (GetLogstashFields.scan (os.Getenv env "LOGSTASH_FIELDS") c.Config.Env) ',',
      '=' ∈ seg.data) :
    ∃ kvs : List (String × String),
      List.Forall₂ (fun (seg : String) (kv : String × String) =>
          '=' ∉ kv.1.data ∧ '=' ∉ kv.2.data ∧
          ∃ rest : String, seg = kv.1 ++ "=" ++ kv.2 ++ rest ∧
            (rest = "" ∨ ∃ r, rest = "=" ++ r))
        (strings.Split (GetLogstashFields.scan (os.Getenv env "LOGSTASH_FIELDS") c.Config.Env)
          ',') kvs ∧
      (GetLogstashFields env c a).1 =
        .ok (kvs.foldl (fun m kv => m.set kv.1 kv.2) GoMap.empty) := by
  refine ⟨(strings.Split (GetLogstashFields.scan (os.Getenv env "LOGSTASH_FIELDS")
      c.Config.Env) ',').map (fun seg : String =>
        (String.mk (seg.data.takeWhile (fun c => c != '=')),
         String.mk (((seg.data.dropWhile (fun c => c != '=')).drop 1).takeWhile
           (fun c => c != '=')))), ?_, ?_⟩
  rotate_left
  · have hne := scan_ne_empty_of_segments _ hseg
    have hlen := (length_pos_iff _).mpr hne
    unfold GetLogstashFields
    simp only [h, hlen, if_true, parse_ok _ GoMap.empty hseg]
  · rw [List.forall₂_map_right_iff, List.forall₂_same]
    intro seg hmem
    exact ⟨not_mem_takeWhile '=' _, not_mem_takeWhile '=' _, segment_decompose seg (hseg seg hmem)⟩

/-- C8: the code at two fields strings in which every comma-segment contains an
`=`.  The claim asks for the value to be all of the text after the first `=`;
lines 114-115 split the segment on every `=` and keep `sp[1]` only, so for the
global value `a=b=c` the value stored under `a` is `b`, not `b=c`, and for the
container override `url=http://h/?q=1` the value stored under `url` is
`http://h/?q`, not `http://h/?q=1`: the text after the second `=` is lost. -/
theorem GetLogstashFields_value_truncated :
    (∀ seg ∈ strings.Split
      (GetLogstashFields.scan (os.Getenv envGlobal "LOGSTASH_FIELDS")
        (sampleContainer "c1" []).Config.Env) ',', '=' ∈ seg.data) ∧
    GetLogstashFields.scan (os.Getenv envGlobal "LOGSTASH_FIELDS")
      (sampleContainer "c1" []).Config.Env = "a=b=c" ∧
    SolrAdapter.new.logstashFields.get "c1" = none ∧
    (∃ fields, (GetLogstashFields envGlobal (sampleContainer "c1" []) SolrAdapter.new).1 =
        .ok fields ∧
      fields.get "a" = some "b" ∧ fields.get "a" ≠ some "b=c") ∧
    (∀ seg ∈ strings.Split
      (GetLogstashFields.scan (os.Getenv envNone "LOGSTASH_FIELDS")
        (sampleContainer "c1" ["LOGSTASH_FIELDS=url=http://h/?q=1"]).Config.Env) ',',
      '=' ∈ seg.data) ∧
    GetLogstashFields.scan (os.Getenv envNone "LOGSTASH_FIELDS")
      (sampleContainer "c1" ["LOGSTASH_FIELDS=url=http://h/?q=1"]).Config.Env =
      "url=http://h/?q=1" ∧
    ∃ fields, (GetLogstashFields envNone
        (sampleContainer "c1" ["LOGSTASH_FIELDS=url=http://h/?q=1"]) SolrAdapter.new).1 =
        .ok fields ∧
      fields.get "url" = some "http://h/?q" ∧ fields.get "url" ≠ some "http://h/?q=1" :=
  ⟨by decide, by decide, rfl, ⟨_, rfl, by decide, by decide⟩,
   by decide, by decide, _, rfl, by decide, by decide⟩

/-- C9 (as the code has it): when the effective fields string is not empty and
one of its comma-segments contains no `=`, `GetLogstashFields` on a cache miss
ends in a run-time panic and the adapter is exactly as it was: nothing is
stored for this container and no cache entry is changed. -/
theorem GetLogstashFields_malformed (env : Environ) (c : Container) (a : SolrAdapter)
    (h : a.logstashFields.get c.ID = none)
    (hne : GetLogstashFields.scan (os.Getenv env "LOGSTASH_FIELDS") c.Config.Env ≠ "")
    (hseg : ∃ seg ∈ strings.Split
      (GetLogstashFields.scan (os.Getenv env "LOGSTASH_FIELDS") c.Config.Env) ',',
      '=' ∉ seg.data) :
    ∃ msg, GetLogstashFields env c a = (.error msg, a) := by
  obtain ⟨msg, hmsg⟩ := parse_error _ GoMap.empty hseg
  refine ⟨msg, ?_⟩
  have hlen := (length_pos_iff _).mpr hne
  unfold GetLogstashFields
  simp only [h, hlen, if_true, hmsg]

/-- The override `a=b,` has an empty last segment: the lookup panics and the
adapter is unchanged. -/
theorem GetLogstashFields_malformed_witness :
    SolrAdapter.new.logstashFields.get "c1" = none ∧
    GetLogstashFields.scan (os.Getenv envNone "LOGSTASH_FIELDS")
      (sampleContainer "c1" ["LOGSTASH_FIELDS=a=b,"]).Config.Env ≠ "" ∧
    ∃ msg, GetLogstashFields envNone (sampleContainer "c1" ["LOGSTASH_FIELDS=a=b,"])
      SolrAdapter.new = (.error msg, SolrAdapter.new) :=
  ⟨rfl, by decide,
   GetLogstashFields_malformed envNone (sampleContainer "c1" ["LOGSTASH_FIELDS=a=b,"])
     SolrAdapter.new rfl (by decide) (by decide)⟩

/-- C9 as stated fails for the empty fields string: `strings.Split` gives it
one comma-segment, the empty one, which contains no `=`, yet the lookup returns
the empty map and stores it for the container. -/
theorem GetLogstashFields_empty_string :
    GetLogstashFields.scan (os.Getenv envNone "LOGSTASH_FIELDS")
      (sampleContainer "c1" []).Config.Env = "" ∧
    (∃ seg ∈ strings.Split "" ',', '=' ∉ seg.data) ∧
    SolrAdapter.new.logstashFields.get "c1" = none ∧
    (GetLogstashFields envNone (sampleContainer "c1" []) SolrAdapter.new).1 =
      .ok GoMap.empty ∧
    (GetLogstashFields envNone (sampleContainer "c1" [])
      SolrAdapter.new).2.logstashFields.get "c1" = some GoMap.empty :=
  ⟨by decide, by decide, rfl, rfl, rfl⟩

/-! ## The caches -/

theorem tags_hit (env : Environ) (c : Container) (a : SolrAdapter) (v : List String)
    (h : a.containerTags.get c.ID = some v) : GetContainerTags env c a = (v, a) := by
  unfold GetContainerTags
  simp only [h]

theorem fields_hit (env : Environ) (c : Container) (a : SolrAdapter) (v : GoMap String)
    (h : a.logstashFields.get c.ID = some v) : GetLogstashFields env c a = (.ok v, a) := by
  unfold GetLogstashFields
  simp only [h]

theorem decode_hit (env : Environ) (c : Container) (a : SolrAdapter) (v : Bool)
    (h : a.decodeJsonLogs.get c.ID = some v) : IsDecodeJsonLogs env c a = (v, a) := by
  unfold IsDecodeJsonLogs
  simp only [h]

theorem tags_stored (env : Environ) (c : Container) (a : SolrAdapter) :
    (GetContainerTags env c a).2.containerTags.get c.ID = some (GetContainerTags env c a).1 := by
  cases hget : a.containerTags.get c.ID with
  | some v => rw [tags_hit env c a v hget]; exact hget
  | none =>
    unfold GetContainerTags
    simp only [hget]
    exact GoMap.get_set_self _ _ _

theorem fields_stored (env : Environ) (c : Container) (a : SolrAdapter) (v : GoMap String)
    (hv : (GetLogstashFields env c a).1 = .ok v) :
    (GetLogstashFields env c a).2.logstashFields.get c.ID = some v := by
  cases hget : a.logstashFields.get c.ID with
  | some v0 =>
    rw [fields_hit env c a v0 hget] at hv ⊢
    cases hv
    exact hget
  | none =>
    unfold GetLogstashFields at hv ⊢
    simp only [hget] at hv ⊢
    split at hv
    · cases hv
    · next fields hp =>
      cases hv
      simp only [hp]
      exact GoMap.get_set_self _ _ _

theorem decode_stored (env : Environ) (c : Container) (a : SolrAdapter) :
    (IsDecodeJsonLogs env c a).2.decodeJsonLogs.get c.ID = some (IsDecodeJsonLogs env c a).1 := by
  cases hget : a.decodeJsonLogs.get c.ID with
  | some v => rw [decode_hit env c a v hget]; exact hget
  | none =>
    unfold IsDecodeJsonLogs
    simp only [hget]
    exact GoMap.get_set_self _ _ _

theorem get_set_of_miss {V : Type} (m : GoMap V) (k k2 : String) (v v2 : V)
    (hk : m.get k = some v) (hmiss : m.get k2 = none) : (m.set k2 v2).get k = some v := by
  have hne : k ≠ k2 := by
    intro e
    rw [e, hmiss] at hk
    cases hk
  rw [GoMap.get_set_ne m k2 k v2 hne]
  exact hk

theorem run_keeps (op : Lookup) (a : SolrAdapter) (k : String) :
    (∀ v, a.containerTags.get k = some v → (op.run a).containerTags.get k = some v) ∧
    (∀ v, a.logstashFields.get k = some v → (op.run a).logstashFields.get k = some v) ∧
    (∀ v, a.decodeJsonLogs.get k = some v → (op.run a).decodeJsonLogs.get k = some v) := by
  cases op with
  | tags env c =>
    cases hget : a.containerTags.get c.ID with
    | some v0 =>
      simp only [Lookup.run, tags_hit env c a v0 hget]
      exact ⟨fun _ h => h, fun _ h => h, fun _ h => h⟩
    | none =>
      simp only [Lookup.run, GetContainerTags, hget]
      exact ⟨fun v h => get_set_of_miss _ _ _ _ _ h hget, fun _ h => h, fun _ h => h⟩
  | fields env c =>
    cases hget : a.logstashFields.get c.ID with
    | some v0 =>
      simp only [Lookup.run, fields_hit env c a v0 hget]
      exact ⟨fun _ h => h, fun _ h => h, fun _ h => h⟩
    | none =>
      simp only [Lookup.run, GetLogstashFields, hget]
      split
      · exact ⟨fun _ h => h, fun _ h => h, fun _ h => h⟩
      · exact ⟨fun _ h => h, fun v h => get_set_of_miss _ _ _ _ _ h hget, fun _ h => h⟩
  | decode env c =>
    cases hget : a.decodeJsonLogs.get c.ID with
    | some v0 =>
      simp only [Lookup.run, decode_hit env c a v0 hget]
      exact ⟨fun _ h => h, fun _ h => h, fun _ h => h⟩
    | none =>
      simp only [Lookup.run, IsDecodeJsonLogs, hget]
      exact ⟨fun _ h => h, fun _ h => h, fun v h => get_set_of_miss _ _ _ _ _ h hget⟩

theorem runAll_keeps (ops : List Lookup) (a : SolrAdapter) (k : String) :
    (∀ v, a.containerTags.get k = some v →
      (Lookup.runAll ops a).containerTags.get k = some v) ∧
    (∀ v, a.logstashFields.get k = some v →
      (Lookup.runAll ops a).logstashFields.get k = some v) ∧
    (∀ v, a.decodeJsonLogs.get k = some v →
      (Lookup.runAll ops a).decodeJsonLogs.get k = some v) := by
  induction ops generalizing a with
  | nil => exact ⟨fun _ h => h, fun _ h => h, fun _ h => h⟩
  | cons op ops ih =>
    have h1 := run_keeps op a k
    have h2 := ih (op.run a)
    exact ⟨fun v h => h2.1 v (h1.1 v h), fun v h => h2.2.1 v (h1.2.1 v h),
      fun v h => h2.2.2 v (h1.2.2 v h)⟩

/-- C6: once a lookup for a container ID has returned a value, every later
lookup of the same kind for that ID returns the same value and leaves the
adapter, hence all three caches, unchanged, whatever lookups of any kind, for
any containers and under any environments, were made in between, and whatever
the environment and the container's environment list are at the later call. -/
theorem lookups_cached (a : SolrAdapter) (env env' : Environ) (c c' : Container)
    (ops : List Lookup) (hid : c'.ID = c.ID) :
    GetContainerTags env' c' (Lookup.runAll ops (GetContainerTags env c a).2) =
      ((GetContainerTags env c a).1, Lookup.runAll ops (GetContainerTags env c a).2) ∧
    (∀ fields, (GetLogstashFields env c a).1 = .ok fields →
      GetLogstashFields env' c' (Lookup.runAll ops (GetLogstashFields env c a).2) =
        (.ok fields, Lookup.runAll ops (GetLogstashFields env c a).2)) ∧
    IsDecodeJsonLogs env' c' (Lookup.runAll ops (IsDecodeJsonLogs env c a).2) =
      ((IsDecodeJsonLogs env c a).1, Lookup.runAll ops (IsDecodeJsonLogs env c a).2) := by
  refine ⟨?_, ?_, ?_⟩
  · apply tags_hit
    rw [hid]
    exact (runAll_keeps ops _ c.ID).1 _ (tags_stored env c a)
  · intro fields hf
    apply fields_hit
    rw [hid]
    exact (runAll_keeps ops _ c.ID).2.1 _ (fields_stored env c a fields hf)
  · apply decode_hit
    rw [hid]
    exact (runAll_keeps ops _ c.ID).2.2 _ (decode_stored env c a)

/-- First lookups under `envGlobal` for a container with its own tags and
fields; later lookups for the same ID, after other lookups, with nothing set
globally and other overrides in the container, return the first values. -/
theorem lookups_cached_witness :
    cacheLater.ID = cacheFirst.ID ∧
    (GetContainerTags envNone cacheLater
      (Lookup.runAll cacheBetween (GetContainerTags envGlobal cacheFirst SolrAdapter.new).2)).1 =
      ["x"] ∧
    (GetLogstashFields envNone cacheLater
      (Lookup.runAll cacheBetween (GetLogstashFields envGlobal cacheFirst SolrAdapter.new).2)).1 =
      .ok (GoMap.set GoMap.empty "k" "v") ∧
    (IsDecodeJsonLogs envNone cacheLater
      (Lookup.runAll cacheBetween (IsDecodeJsonLogs envGlobal cacheFirst SolrAdapter.new).2)).1 =
      false :=
  ⟨rfl,
   (congrArg Prod.fst
     (lookups_cached SolrAdapter.new envGlobal envNone cacheFirst cacheLater cacheBetween
       rfl).1).trans (by decide),
   congrArg Prod.fst
     ((lookups_cached SolrAdapter.new envGlobal envNone cacheFirst cacheLater cacheBetween
       rfl).2.1 (GoMap.set GoMap.empty "k" "v") rfl),
   (congrArg Prod.fst
     (lookups_cached SolrAdapter.new envGlobal envNone cacheFirst cacheLater cacheBetween
       rfl).2.2).trans (by decide)⟩

/-! ## The delivery loop -/

theorem retries_length (w : World) (js : String) (n k : Nat) :
    (Stream.retries w js n k).length = 2 * k := by
  induction k generalizing n with
  | zero => rfl
  | succ k ih =>
    simp only [Stream.retries, List.length_cons, ih]
    omega

theorem retries_count_sleep (w : World) (js : String) (n k : Nat) :
    (Stream.retries w js n k).count (Event.sleep (2 * Second)) = k := by
  induction k generalizing n with
  | zero => rfl
  | succ k ih =>
    simp [Stream.retries, List.count_cons, ih]

theorem retries_mem (w : World) (js : String) (n k : Nat) (e : Event)
    (h : e ∈ Stream.retries w js n k) :
    e = Event.sleep (2 * Second) ∨ ∃ id, e = Event.update id js := by
  induction k generalizing n with
  | zero => simp [Stream.retries] at h
  | succ k ih =>
    simp only [Stream.retries, List.mem_cons] at h
    rcases h with h | h | h
    · exact Or.inr ⟨_, h⟩
    · exact Or.inl h
    · exact ih _ h

theorem deliver_retry (w : World) (env : Environ) (js : String) (k : Nat) :
    ∀ (fuel : Nat) (p : Proc), os.Getenv env "RETRY_SEND" ≠ "" → k < fuel →
      (∀ i, i < k → w.backend (p.calls + i) ≠ none) → w.backend (p.calls + k) = none →
      Stream.deliver w env js fuel p = some (Outcome.done
        { p with
          calls := p.calls + k + 1
          trace := p.trace ++ Stream.retries w js p.calls k ++
            [Event.update (w.clock (p.calls + k)) js] }) := by
  induction k with
  | zero =>
    intro fuel p _ hfuel _ hok
    obtain ⟨f, rfl⟩ : ∃ f, fuel = f + 1 := ⟨fuel - 1, by omega⟩
    simp only [Nat.add_zero] at hok
    simp [Stream.deliver, hok, Stream.retries]
  | succ k ih =>
    intro fuel p hretry hfuel hfail hok
    obtain ⟨f, rfl⟩ : ∃ f, fuel = f + 1 := ⟨fuel - 1, by omega⟩
    have h0 : w.backend p.calls ≠ none := by
      have := hfail 0 (by omega)
      simpa using this
    obtain ⟨err, herr⟩ := Option.ne_none_iff_exists'.mp h0
    simp only [Stream.deliver, herr, hretry, if_false]
    rw [ih f _ hretry (by omega)]
    · simp [Stream.retries, Nat.add_assoc, Nat.add_comm 1 k]
    · intro i hi
      have := hfail (i + 1) (by omega)
      simpa [Nat.add_assoc, Nat.add_comm 1 i] using this
    · simpa [Nat.add_assoc, Nat.add_comm 1 k] using hok

theorem deliver_fatal (w : World) (env : Environ) (js : String) (fuel : Nat) (p : Proc)
    (err : String) (hretry : os.Getenv env "RETRY_SEND" = "") (hfuel : 0 < fuel)
    (herr : w.backend p.calls = some err) :
    Stream.deliver w env js fuel p = some (Outcome.fatal
      { p with calls := p.calls + 1, trace := p.trace ++ [Event.update (w.clock p.calls) js] }
      ("logstash: could not write:" ++ err)) := by
  obtain ⟨f, rfl⟩ : ∃ f, fuel = f + 1 := ⟨fuel - 1, by omega⟩
  simp [Stream.deliver, herr, hretry]

/-- C3: let the backend fail the next `k` calls of `Update` and accept the one
after.  With `RETRY_SEND` set and fuel for more than `k` calls, the delivery
loop ends normally after `k` failed attempts, each a write of the same bytes
followed by a sleep of two seconds, and one more write of the same bytes: `k + 1`
writes and `k` sleeps; `Stream` then goes on with the next message.  With
`RETRY_SEND` unset or empty and `k ≥ 1`, the loop ends the process after one
write and no sleep, and `Stream` returns that exit whatever messages follow. -/
theorem Stream_delivery (w : World) (env : Environ) (js : String) (k fuel : Nat) (p : Proc)
    (hfail : ∀ i, i < k → w.backend (p.calls + i) ≠ none)
    (hok : w.backend (p.calls + k) = none) :
    (os.Getenv env "RETRY_SEND" ≠ "" → k < fuel →
      Stream.deliver w env js fuel p = some (Outcome.done
        { p with
          calls := p.calls + k + 1
          trace := p.trace ++ Stream.retries w js p.calls k ++
            [Event.update (w.clock (p.calls + k)) js] }) ∧
      (Stream.retries w js p.calls k).length = 2 * k ∧
      (Stream.retries w js p.calls k).count (Event.sleep (2 * Second)) = k ∧
      (∀ e ∈ Stream.retries w js p.calls k,
        e = Event.sleep (2 * Second) ∨ ∃ id, e = Event.update id js) ∧
      ∀ (R J : Type) (re : RegexpPkg R) (jp : JsonPkg J) (m : Message) (rest : List Message)
        (p0 : Proc), Stream.prepare re jp w env m p0 = Prepared.send p js →
        Stream re jp w env fuel (m :: rest) p0 =
          Stream re jp w env fuel rest
            { p with
              calls := p.calls + k + 1
              trace := p.trace ++ Stream.retries w js p.calls k ++
                [Event.update (w.clock (p.calls + k)) js] }) ∧
    (os.Getenv env "RETRY_SEND" = "" → 1 ≤ k → 0 < fuel →
      ∃ msg,
        Stream.deliver w env js fuel p = some (Outcome.fatal
          { p with
            calls := p.calls + 1
            trace := p.trace ++ [Event.update (w.clock p.calls) js] } msg) ∧
        ∀ (R J : Type) (re : RegexpPkg R) (jp : JsonPkg J) (m : Message) (rest : List Message)
          (p0 : Proc), Stream.prepare re jp w env m p0 = Prepared.send p js →
          Stream re jp w env fuel (m :: rest) p0 = some (Outcome.fatal
            { p with
              calls := p.calls + 1
              trace := p.trace ++ [Event.update (w.clock p.calls) js] } msg)) := by
  constructor
  · intro hretry hfuel
    have hd := deliver_retry w env js k fuel p hretry hfuel hfail hok
    refine ⟨hd, retries_length w js _ k, retries_count_sleep w js _ k,
      fun e he => retries_mem w js _ k e he, ?_⟩
    intro R J re jp m rest p0 hprep
    simp only [Stream, Stream.body, hprep, hd]
  · intro hretry hk hfuel
    have h0 : w.backend p.calls ≠ none := by
      have := hfail 0 (by omega)
      simpa using this
    obtain ⟨err, herr⟩ := Option.ne_none_iff_exists'.mp h0
    have hd := deliver_fatal w env js fuel p err hretry hfuel herr
    refine ⟨_, hd, ?_⟩
    intro R J re jp m rest p0 hprep
    simp only [Stream, Stream.body, hprep, hd]

/-- The backend of `sampleWorld` fails once.  With `RETRY_SEND=1` the first of
two messages is written twice with one sleep in between, and the run goes on
with the second message; with nothing set the first write ends the process. -/
theorem Stream_delivery_witness :
    (∀ i, i < 1 → sampleWorld.backend (procPrepared.calls + i) ≠ none) ∧
    sampleWorld.backend (procPrepared.calls + 1) = none ∧
    Stream.prepare sampleRegexp sampleJson sampleWorld envRetry (sampleMessage "hello")
      procStart = Prepared.send procPrepared "message,docker,stream,tags\n" ∧
    Stream sampleRegexp sampleJson sampleWorld envRetry 5
        [sampleMessage "hello", sampleMessage "{}"] procStart =
      Stream sampleRegexp sampleJson sampleWorld envRetry 5 [sampleMessage "{}"]
        { procPrepared with
          calls := 2
          trace := [Event.update 100 "message,docker,stream,tags\n", Event.sleep (2 * Second),
            Event.update 101 "message,docker,stream,tags\n"] } ∧
    ∃ msg, Stream sampleRegexp sampleJson sampleWorld envNone 5
        [sampleMessage "hello", sampleMessage "{}"] procStart =
      some (Outcome.fatal
        { procPrepared with
          calls := 1
          trace := [Event.update 100 "message,docker,stream,tags\n"] } msg) :=
  ⟨by decide, by decide, rfl,
   ((Stream_delivery sampleWorld envRetry "message,docker,stream,tags\n" 1 5 procPrepared
      (by decide) (by decide)).1 (by decide) (by decide)).2.2.2.2 String Unit sampleRegexp
      sampleJson (sampleMessage "hello") [sampleMessage "{}"] procStart rfl,
   ((Stream_delivery sampleWorld envNone "message,docker,stream,tags\n" 1 5 procPrepared
      (by decide) (by decide)).2 (by decide) (by decide) (by decide)).imp
      fun _ h => h.2 String Unit sampleRegexp sampleJson (sampleMessage "hello")
        [sampleMessage "{}"] procStart rfl⟩

/-! ## The document -/

theorem get_isSome_iff {V : Type} (m : GoMap V) (k : String) :
    (m.get k).isSome = true ↔ ∃ v, (k, v) ∈ m.entries := by
  induction m with
  | nil => simp [GoMap.get, GoMap.entries]
  | cons e rest ih =>
    obtain ⟨k0, v0⟩ := e
    unfold GoMap.get
    by_cases h : k0 = k
    · subst h
      simp [GoMap.entries]
    · have h2 : ¬ k = k0 := fun e => h e.symm
      simp only [h, if_false, ih, GoMap.entries, List.mem_cons, Prod.mk.injEq, h2, false_and,
        false_or]

theorem overlay_isSome {J : Type} (data : GoMap (Value J)) (l : List (String × String))
    (k : String) :
    ((Stream.overlay data l).get k).isSome = true ↔
      (data.get k).isSome = true ∨ ∃ v, (k, v) ∈ l := by
  induction l generalizing data with
  | nil => simp [Stream.overlay]
  | cons e rest ih =>
    obtain ⟨k0, v0⟩ := e
    rw [Stream.overlay, ih, GoMap.get_set]
    by_cases h : k = k0
    · subst h
      simp
    · simp [h]

theorem overlay_get_of_not_mem {J : Type} (data : GoMap (Value J)) (l : List (String × String))
    (k : String) (h : ∀ v, (k, v) ∉ l) : (Stream.overlay data l).get k = data.get k := by
  induction l generalizing data with
  | nil => rfl
  | cons e rest ih =>
    obtain ⟨k0, v0⟩ := e
    have hne : k ≠ k0 := by
      intro e
      subst e
      exact h v0 (List.mem_cons_self _ _)
    rw [Stream.overlay, ih _ (fun v hv => h v (List.mem_cons_of_mem _ hv)),
      GoMap.get_set_ne _ _ _ _ hne]

theorem document_eq {J : Type} (jp : JsonPkg J) (decode : Bool) (raw : String)
    (fields : GoMap String) (dockerInfo : DockerInfo) (source : String) (tags : List String) :
    ∃ seed : GoMap (Value J),
      Stream.document jp decode raw fields dockerInfo source tags =
        (((Stream.overlay seed fields.entries).set "docker" (Value.docker dockerInfo)).set
          "stream" (Value.str source)).set "tags" (Value.strs tags) ∧
      ((decode = false ∨ (jp.Unmarshal raw).2 ≠ none) →
        seed = GoMap.set GoMap.empty "message" (Value.str raw)) := by
  unfold Stream.document
  cases decode with
  | false => exact ⟨_, rfl, fun _ => rfl⟩
  | true =>
    simp only [if_true]
    rcases hu : jp.Unmarshal raw with ⟨data, err⟩
    cases err with
    | some e => exact ⟨_, rfl, fun _ => rfl⟩
    | none =>
      refine ⟨_, rfl, ?_⟩
      intro h
      rcases h with h | h
      · cases h
      · exact absurd rfl h

/-- C4: whatever the raw line, the decode flag, the result of `json.Unmarshal`
and the field mapping are, the document built in `Stream` has the container
identity under `docker`, the source stream under `stream` and the tag list under
`tags`; and when `Stream` hands a message to the delivery loop, the bytes are
the encoding, plus a newline, of a document that has under these keys the
identity of the message's container, the message's source and the tags of the
container. -/
theorem document_identity_last {J : Type} (jp : JsonPkg J) (decode : Bool) (raw : String)
    (fields : GoMap String) (dockerInfo : DockerInfo) (source : String) (tags : List String) :
    (Stream.document jp decode raw fields dockerInfo source tags).get "docker" =
      some (Value.docker dockerInfo) ∧
    (Stream.document jp decode raw fields dockerInfo source tags).get "stream" =
      some (Value.str source) ∧
    (Stream.document jp decode raw fields dockerInfo source tags).get "tags" =
      some (Value.strs tags) ∧
    ∀ (R : Type) (re : RegexpPkg R) (w : World) (env : Environ) (m : Message) (p0 p : Proc)
      (js : String), Stream.prepare re jp w env m p0 = Prepared.send p js →
      ∃ doc bytes, jp.Marshal doc = .ok bytes ∧ js = bytes ++ "\n" ∧
        doc.get "docker" = some (Value.docker
          { Name := m.Container.Name, ID := m.Container.ID,
            Image := m.Container.Config.Image,
            Hostname := GetContainerHostname (w.hostHostname p0.received) m.Container,
            Labels :=
              if os.Getenv env "DOCKER_LABELS" ≠ "" then
                some (Stream.labels GoMap.empty m.Container.Config.Labels.entries)
              else none }) ∧
        doc.get "stream" = some (Value.str m.Source) ∧
        doc.get "tags" = some (Value.strs (GetContainerTags env m.Container p0.adapter).1) := by
  have key : ∀ (decode : Bool) (raw : String) (fields : GoMap String) (dockerInfo : DockerInfo)
      (source : String) (tags : List String),
      (Stream.document jp decode raw fields dockerInfo source tags).get "docker" =
        some (Value.docker dockerInfo) ∧
      (Stream.document jp decode raw fields dockerInfo source tags).get "stream" =
        some (Value.str source) ∧
      (Stream.document jp decode raw fields dockerInfo source tags).get "tags" =
        some (Value.strs tags) := by
    intro decode raw fields dockerInfo source tags
    obtain ⟨seed, hdoc, _⟩ := document_eq jp decode raw fields dockerInfo source tags
    rw [hdoc]
    refine ⟨?_, ?_, ?_⟩
    · rw [GoMap.get_set_ne _ _ _ _ (by decide), GoMap.get_set_ne _ _ _ _ (by decide),
        GoMap.get_set_self]
    · rw [GoMap.get_set_ne _ _ _ _ (by decide), GoMap.get_set_self]
    · rw [GoMap.get_set_self]
  refine ⟨(key decode raw fields dockerInfo source tags).1,
    (key decode raw fields dockerInfo source tags).2.1,
    (key decode raw fields dockerInfo source tags).2.2, ?_⟩
  intro R re w env m p0 p js h
  unfold Stream.prepare at h
  simp only at h
  split at h
  · cases h
  · split at h
    · cases h
    · next flds a2 hf =>
      split at h
      · cases h
      · next bytes hm =>
        cases h
        refine ⟨_, bytes, hm, rfl, ?_⟩
        by_cases hl : os.Getenv env "DOCKER_LABELS" = ""
        · simpa [hl] using key _ _ _ _ _ _
        · simpa [hl] using key _ _ _ _ _ _

/-- The message `{}` of the container `c1`: the bytes handed to the delivery
loop encode a document with the identity of `c1`, the source `stdout` and the
empty tag list. -/
theorem document_identity_last_witness :
    Stream.prepare sampleRegexp sampleJson sampleWorld envRetry (sampleMessage "{}")
      procStart = Prepared.send procPrepared "docker,stream,tags\n" ∧
    ∃ doc bytes, sampleJson.Marshal doc = .ok bytes ∧
      "docker,stream,tags\n" = bytes ++ "\n" ∧
      doc.get "docker" = some (Value.docker sampleDockerInfo) ∧
      doc.get "stream" = some (Value.str "stdout") ∧
      doc.get "tags" = some (Value.strs []) :=
  ⟨rfl,
   (document_identity_last sampleJson true "{}" GoMap.empty sampleDockerInfo "stdout" []).2.2.2
     String sampleRegexp sampleWorld envRetry (sampleMessage "{}") procStart procPrepared
     "docker,stream,tags\n" rfl⟩

theorem overlay_get_of_nodup {J : Type} (data : GoMap (Value J)) (l : List (String × String))
    (k v : String) (hnd : (l.map Prod.fst).Nodup) (hget : GoMap.get l k = some v) :
    (Stream.overlay data l).get k = some (Value.str v) := by
  induction l generalizing data with
  | nil => simp [GoMap.get] at hget
  | cons e rest ih =>
    obtain ⟨k0, v0⟩ := e
    rw [List.map_cons, List.nodup_cons] at hnd
    rw [Stream.overlay]
    by_cases h : k0 = k
    · subst h
      have hv : v0 = v := by simpa [GoMap.get] using hget
      subst hv
      rw [overlay_get_of_not_mem, GoMap.get_set_self]
      intro v hv
      exact hnd.1 (List.mem_map.mpr ⟨(k0, v), hv, rfl⟩)
    · apply ih _ hnd.2
      simpa [GoMap.get, h] using hget

/-- C5 (as the code has it): when the decode flag is false, or `json.Unmarshal`
returns an error for the raw line, the keys of the document built in `Stream`
are exactly `message`, the keys of the field mapping, `docker`, `stream` and
`tags`; the value under `message` is the raw line when the field mapping has no
key `message`, and the value of that field when it has one. -/
theorem document_message {J : Type} (jp : JsonPkg J) (decode : Bool) (raw : String)
    (fields : GoMap String) (dockerInfo : DockerInfo) (source : String) (tags : List String)
    (hraw : decode = false ∨ (jp.Unmarshal raw).2 ≠ none) :
    (∀ k, ((Stream.document jp decode raw fields dockerInfo source tags).get k).isSome = true ↔
      k = "message" ∨ (fields.get k).isSome = true ∨ k = "docker" ∨ k = "stream" ∨
        k = "tags") ∧
    (fields.get "message" = none →
      (Stream.document jp decode raw fields dockerInfo source tags).get "message" =
        some (Value.str raw)) ∧
    (∀ v, fields.get "message" = some v → (fields.entries.map Prod.fst).Nodup →
      (Stream.document jp decode raw fields dockerInfo source tags).get "message" =
        some (Value.str v)) := by
  obtain ⟨seed, hdoc, hseed⟩ := document_eq jp decode raw fields dockerInfo source tags
  have hs := hseed hraw
  subst hs
  rw [hdoc]
  refine ⟨?_, ?_, ?_⟩
  rotate_left 2
  · intro v hget hnd
    rw [GoMap.get_set_ne _ _ _ _ (by decide), GoMap.get_set_ne _ _ _ _ (by decide),
      GoMap.get_set_ne _ _ _ _ (by decide)]
    exact overlay_get_of_nodup _ _ _ _ hnd hget
  · intro k
    rw [GoMap.get_set, GoMap.get_set, GoMap.get_set]
    by_cases h1 : k = "tags"
    · simp [h1]
    · by_cases h2 : k = "stream"
      · simp [h2]
      · by_cases h3 : k = "docker"
        · simp [h3]
        · simp only [h1, h2, h3, if_false, or_false, overlay_isSome, GoMap.get_set,
            ← get_isSome_iff]
          by_cases h4 : k = "message"
          · simp [h4]
          · simp [h4, GoMap.get_empty]
  · intro hnone
    rw [GoMap.get_set_ne _ _ _ _ (by decide), GoMap.get_set_ne _ _ _ _ (by decide),
      GoMap.get_set_ne _ _ _ _ (by decide), overlay_get_of_not_mem, GoMap.get_set_self]
    intro v hv
    have : (fields.get "message").isSome = true := (get_isSome_iff fields "message").mpr ⟨v, hv⟩
    rw [hnone] at this
    cases this

/-- With the decode flag false and the field mapping `k=v`, the document for
the raw line `hello` has `hello` under `message`. -/
theorem document_message_witness :
    (false = false ∨ (sampleJson.Unmarshal "hello").2 ≠ none) ∧
    GoMap.get (GoMap.set GoMap.empty "k" "v") "message" = none ∧
    (Stream.document sampleJson false "hello" (GoMap.set GoMap.empty "k" "v") sampleDockerInfo
      "stdout" []).get "message" = some (Value.str "hello") :=
  ⟨Or.inl rfl, rfl,
   (document_message sampleJson false "hello" (GoMap.set GoMap.empty "k" "v") sampleDockerInfo
     "stdout" [] (Or.inl rfl)).2.1 rfl⟩

/-- C5 as stated fails: with `LOGSTASH_FIELDS=message=x` the field mapping has
the key `message`, and for the raw line `hello`, which is not valid JSON, the
document has `x` under `message`, not the raw line. -/
theorem document_message_overwritten :
    (GetLogstashFields envMessageField (sampleContainer "c1" []) SolrAdapter.new).1 =
      .ok (GoMap.set GoMap.empty "message" "x") ∧
    (sampleJson.Unmarshal "hello").2 ≠ none ∧
    (Stream.document sampleJson true "hello" (GoMap.set GoMap.empty "message" "x")
      sampleDockerInfo "stdout" []).get "message" = some (Value.str "x") ∧
    (Stream.document sampleJson true "hello" (GoMap.set GoMap.empty "message" "x")
      sampleDockerInfo "stdout" []).get "message" ≠ some (Value.str "hello") :=
  ⟨rfl, by decide, rfl,
   fun h => absurd (Value.str.inj (Option.some.inj h)) (by decide)⟩

end Solr
